import Mathlib

/-!
# Verification of the ghloner concurrent repository synchronization engine

Shallow embedding of the core of `ghloner` (a Go tool that keeps a local
directory tree in sync with every repository of a GitHub organization) and
proofs about it.

Embedded components, each translated from the Go source:

* `runWithRetryGo` — `Operations.RunWithRetry`
  (`internal/repository/git/operations.go`): bounded-attempt, fixed-delay
  retry loop.
* `managerCloneRepository` — `Manager.cloneRepository` clone loop with its
  empty-repository / not-found short circuits.
* `updateRepository` — `Manager.updateRepository` update pipeline
  (open, update remote URL, head, fetch, remote hash, conditional pull).
* `runPool` — `WorkerPool.ProcessRepositories`
  (`internal/repository/concurrency/worker_pool.go`): bounded-concurrency
  dispatcher with cancellation, modelled as an executable transition system
  over admission / completion / cancellation events.
* `fetchRemainingPages` — `RepositoryLister.fetchRemainingPages`: concurrent
  pagination reassembly, modelled over an arbitrary arrival order of page
  results.
* `stepTracker` — `ProgressTracker.StartWorker` / `CompleteRepository`
  counter updates.

Effects that matter to the specification (sleeps between retry attempts,
directory deletion, re-cloning) are recorded explicitly in the results of
the embedded functions, so every claim can be evaluated on concrete inputs.
-/

/-- Go's `strings.Contains s pat`: `pat` occurs as a contiguous substring
of `s`. -/
def containsSubstr (s pat : String) : Bool :=
  decide ( List.IsInfix pat.data s.data)

/-- Result of one `RunWithRetry` call: how many times the wrapped operation
was invoked, the sequence of sleeps (in seconds) performed between
attempts, and the returned error (`none` = nil). -/
structure RetryResult where
  invocations : Nat
  delays : List Nat
  result : Option String
  deriving Repr, DecidableEq

/-- The retry message produced by
`fmt.Errorf("error %s %s: %w", operation, repoName, err)`. -/
def wrapRetryError (operation repoName err : String) : String :=
  "error " ++ operation ++ " " ++ repoName ++ ": " ++ err

/-- Body of the `for attempt := 1; attempt <= o.retryCount; attempt++` loop
of `Operations.RunWithRetry`.  `errs i` is the error returned by the `i`-th
invocation of the wrapped operation (`none` = success); `fuel` is the number
of loop iterations still allowed (`retryCount - attempt + 1`), so
`fuel = 1` is exactly the Go test `attempt == o.retryCount`.  On each
failure the Go code returns immediately for an empty-remote-repository
message, returns the wrapped error on the last attempt, and otherwise
sleeps 5 seconds and retries. -/
def retryLoop (operation repoName : String) (errs : Nat → Option String) :
    Nat → Nat → RetryResult
  | _, 0 => ⟨0, [], none⟩
  | idx, fuel + 1 =>
    match errs idx with
    | none => ⟨1, [], none⟩
    | some e =>
      if containsSubstr e "remote repository is empty" then
        ⟨1, [], some (wrapRetryError operation repoName e)⟩
      else if fuel = 0 then
        ⟨1, [], some (wrapRetryError operation repoName e)⟩
      else
        let r := retryLoop operation repoName errs (idx + 1) fuel
        ⟨r.invocations + 1, 5 :: r.delays, r.result⟩

/-- Model of `Operations.RunWithRetry` (operations.go).  `retryCount` is the Go
`int` field; a non-positive count makes the loop body never run and the
function fall through to its final `return nil`. -/
def runWithRetryGo (retryCount : Int) (operation repoName : String)
    (errs : Nat → Option String) : RetryResult :=
  retryLoop operation repoName errs 0 retryCount.toNat

/-- Error wrapping of `Operations.CloneRepository` (operations.go): an
empty-remote error becomes `repository is empty: …`, any other clone error
becomes `error cloning repository: …`.  `raw` is the error returned by
`git.PlainClone` (`none` = success). -/
def opsCloneResult (raw : Option String) : Option String :=
  match raw with
  | none => none
  | some e =>
    if containsSubstr e "remote repository is empty" then
      some ("repository is empty: " ++ e)
    else
      some ("error cloning repository: " ++ e)

/-- Result of one `Manager.cloneRepository` call: attempts actually made,
returned error (`none` = nil, i.e. success for run purposes), and whether
the empty-remote skip branch was taken. -/
structure CloneRun where
  attempts : Nat
  ret : Option String
  skippedEmpty : Bool
  deriving Repr, DecidableEq

/-- Body of the `for attemptCount = 1; attemptCount <= m.config.RetryCount`
loop of `Manager.cloneRepository` (manager.go, package git).  `raws i` is
the raw `git.PlainClone` error of the `i`-th attempt.  The Go code breaks
with nil on success, returns nil on `repository is empty`, returns the
error on the not-found patterns, sleeps and retries while
`attemptCount < RetryCount`, and returns the error on the last attempt. -/
def cloneLoop (raws : Nat → Option String) : Nat → Nat → CloneRun
  | _, 0 => ⟨0, none, false⟩
  | idx, fuel + 1 =>
    match opsCloneResult (raws idx) with
    | none => ⟨1, none, false⟩
    | some e =>
      if containsSubstr e "repository is empty" then
        ⟨1, none, true⟩
      else if containsSubstr e "repository not found" ||
              containsSubstr e "not found" ||
              containsSubstr e "does not exist" then
        ⟨1, some e, false⟩
      else if fuel = 0 then
        ⟨1, some e, false⟩
      else
        let r := cloneLoop raws (idx + 1) fuel
        ⟨r.attempts + 1, r.ret, r.skippedEmpty⟩

/-- Model of `Manager.cloneRepository` (manager.go): runs the clone loop up to
`RetryCount` times; a non-positive count makes the loop exit immediately
and the function return nil. -/
def managerCloneRepository (retryCount : Int) (raws : Nat → Option String) :
    CloneRun :=
  cloneLoop raws 0 retryCount.toNat

/-- Environment of one `Manager.updateRepository` call: the outcome of each
collaborator operation the pipeline invokes, in source order.  `fetchRaw i`
and `pullRaw i` are the errors produced by the `i`-th attempt of the
closures passed to `RunWithRetry` by `FetchRepository` / `PullRepository`
(after their `NoErrAlreadyUpToDate` check, which maps that sentinel to
success). -/
structure UpdateEnv where
  openErr : Option String
  updateRemoteErr : Option String
  headErr : Option String
  beforeHash : String
  fetchRaw : Nat → Option String
  remoteHashErr : Option String
  remoteHash : String
  pullRaw : Nat → Option String

/-- The closure `FetchRepository` passes to `RunWithRetry`: a fetch error
is wrapped as `error fetching: …`. -/
def fetchOp (env : UpdateEnv) (i : Nat) : Option String :=
  (env.fetchRaw i).map (fun e => "error fetching: " ++ e)

/-- The closure `PullRepository` passes to `RunWithRetry`: a pull error is
wrapped as `error pulling: …`. -/
def pullOp (env : UpdateEnv) (i : Nat) : Option String :=
  (env.pullRaw i).map (fun e => "error pulling: " ++ e)

/-- Result of one `Manager.updateRepository` call: the returned error, how
many pull attempts ran, and whether the call deleted the local directory
tree (`os.RemoveAll`) or re-ran the clone step.  The last two fields
observe the compensating actions the specification's divergence recovery
would perform. -/
structure UpdateRun where
  ret : Option String
  pullInvocations : Nat
  removedDir : Bool
  recloned : Bool
  deriving Repr, DecidableEq

/-- Model of `Manager.updateRepository` (manager.go, lines 343-389 of the source
snapshot): open the cached repository, update the remote URL, read the
local head, fetch via `RunWithRetry`, read the remote head, and pull via
`RunWithRetry` only when the two hashes differ.  Every failure, the pull
failure included, is returned as an error; no branch deletes the directory
or re-clones. -/
def updateRepository (retryCount : Int) (repoName : String) (env : UpdateEnv) :
    UpdateRun :=
  match env.openErr with
  | some e => ⟨some e, 0, false, false⟩
  | none =>
  match env.updateRemoteErr with
  | some e => ⟨some e, 0, false, false⟩
  | none =>
  match env.headErr with
  | some e => ⟨some e, 0, false, false⟩
  | none =>
  match (runWithRetryGo retryCount "fetching updates for" repoName (fetchOp env)).result with
  | some e => ⟨some e, 0, false, false⟩
  | none =>
  match env.remoteHashErr with
  | some e => ⟨some e, 0, false, false⟩
  | none =>
  if env.beforeHash ≠ env.remoteHash then
    let pullRun := runWithRetryGo retryCount "pulling updates for" repoName (pullOp env)
    match pullRun.result with
    | some e => ⟨some e, pullRun.invocations, false, false⟩
    | none => ⟨none, pullRun.invocations, false, false⟩
  else
    ⟨none, 0, false, false⟩

/-- A concrete history-diverged scenario: the local repository opens fine,
its head differs from the fetched remote head, and every pull attempt
fails with go-git's non-fast-forward message. -/
def divergedEnv : UpdateEnv where
  openErr := none
  updateRemoteErr := none
  headErr := none
  beforeHash := "aaaa0000"
  fetchRaw := fun _ => none
  remoteHashErr := none
  remoteHash := "bbbb1111"
  pullRaw := fun _ => some "non-fast-forward update"

/-- Events of one `WorkerPool.ProcessRepositories` run, at the abstraction
level of the admission loop: the loop admits the next repository (after a
successful semaphore acquire), the surrounding context gets cancelled, an
in-flight worker goroutine finishes (reporting its outcome to the progress
tracker just before releasing its semaphore slot), or the dispatcher
returns after `wg.Wait()`. -/
inductive PoolEvent where
  | admitNext : PoolEvent
  | cancel : PoolEvent
  | complete : Nat → PoolEvent
  | finish : PoolEvent
  deriving Repr, DecidableEq

/-- State of one `WorkerPool.ProcessRepositories` run: `next` repositories
admitted so far (indices `0 … next-1`), `completed` the indices whose
outcome was reported to the progress tracker, in completion order,
`cancelled` whether `ctx.Done()` fired, `returned` whether the dispatcher
has returned, and `result` its return value (`none` = nil). -/
structure PoolState where
  next : Nat
  completed : List Nat
  cancelled : Bool
  returned : Bool
  result : Option String
  deriving Repr, DecidableEq

/-- The single aggregate error built by
`fmt.Errorf("program interrupted before completion: %w", ctx.Err())`. -/
def interruptedMsg : String :=
  "program interrupted before completion: context canceled"

/-- Initial state of a run. -/
def initPool : PoolState :=
  ⟨0, [], false, false, none⟩

/-- Number of tasks holding a semaphore slot: admitted but not yet
completed.  Worker goroutines executing `processFunc` are always a subset
of these. -/
def PoolState.running (s : PoolState) : Nat :=
  s.next - s.completed.length

/-- One step of the dispatcher transition system for `n` repositories and
a semaphore of capacity `k` (`workers`).  `none` means the event cannot
happen in this state:

* `admit` — the loop body runs only while no cancellation has been
  observed (`select` with `<-ctx.Done()`), more repositories remain, and
  `semaphore <- struct{}{}` does not block (fewer than `k` slots held);
* `cancel` — the context is cancelled at an arbitrary moment before the
  dispatcher returns;
* `complete i` — an admitted, still-running worker `i` reports its outcome
  via `progressTracker.CompleteRepository` (exactly once per task);
* `finish` — after the loop, `wg.Wait()` requires every admitted task to
  be complete; the return value is the interrupted error when
  `ctx.Err() != nil`, and nil otherwise. -/
def applyPool (k n : Nat) : PoolEvent → PoolState → Option PoolState
  | .admitNext, s =>
    if s.returned = false ∧ s.cancelled = false ∧ s.next < n ∧ s.running < k then
      some { s with next := s.next + 1 }
    else
      none
  | .cancel, s =>
    if s.returned = false then
      some { s with cancelled := true }
    else
      none
  | .complete i, s =>
    if s.returned = false ∧ i < s.next ∧ i ∉ s.completed then
      some { s with completed := s.completed ++ [i] }
    else
      none
  | .finish, s =>
    if s.returned = false ∧ (s.next = n ∨ s.cancelled = true) ∧
        s.completed.length = s.next then
      some { s with returned := true,
                    result := if s.cancelled then some interruptedMsg else none }
    else
      none

/-- Run the dispatcher over a sequence of events. -/
def runPool (k n : Nat) : List PoolEvent → PoolState → Option PoolState
  | [], s => some s
  | e :: rest, s =>
    match applyPool k n e s with
    | none => none
    | some s1 => runPool k n rest s1

/-- One value read from `resultChan` in
`RepositoryLister.fetchRemainingPages`: the page number, the repositories
of that page, and the fetch error (`none` = success).  Repository
descriptors are identified by name. -/
structure PageResult where
  page : Nat
  repos : List String
  err : Option String
  deriving Repr, DecidableEq

/-- Go map update `pageMap[result.page] = result.repos` on `map[int][]*Repository`. -/
def insertPage (m : Nat → Option (List String)) (p : Nat) (rs : List String) :
    Nat → Option (List String) :=
  fun q => if q = p then some rs else m q

/-- Whether an error is one of Go's context cancellation sentinels
(`errors.Is(err, context.Canceled) || errors.Is(err, context.DeadlineExceeded)`). -/
def isCancellationErr (e : String) : Bool :=
  e = "context canceled" || e = "context deadline exceeded"

/-- The `for result := range resultChan` collection loop of
`fetchRemainingPages`: results are consumed in arrival order; the first
failed result aborts the whole call (cancellation errors are returned
as-is, any other error is wrapped with its page number), successful
results are keyed into the page map. -/
def collectResults :
    List PageResult → (Nat → Option (List String)) →
    Except String (Nat → Option (List String))
  | [], m => .ok m
  | r :: rest, m =>
    match r.err with
    | some e =>
      if isCancellationErr e then
        .error e
      else
        .error ("error fetching page " ++ toString r.page ++ ": " ++ e)
    | none => collectResults rest (insertPage m r.page r.repos)

/-- Page numbers visited by `for page := 2; page <= totalPages; page++`. -/
def pageRange (totalPages : Nat) : List Nat :=
  List.range' 2 (totalPages - 1)

/-- The reassembly loop of `fetchRemainingPages`: starting from the
first-page repositories, append `pageMap[page]` for each page number in
ascending order, skipping absent keys. -/
def assemblePages (firstPageRepos : List String) (totalPages : Nat)
    (m : Nat → Option (List String)) : List String :=
  (pageRange totalPages).foldl
    (fun acc p =>
      match m p with
      | some rs => acc ++ rs
      | none => acc)
    firstPageRepos

/-- Model of `RepositoryLister.fetchRemainingPages` (repository_lister.go), from the
point where every page fetch outcome is known.  `arrivals` lists the
worker goroutines' results in the order they arrived on `resultChan`; the
channel is seeded with `pageResult{page: 1, repos: firstPageRepos}` before
any worker starts. -/
def fetchRemainingPages (firstPageRepos : List String) (totalPages : Nat)
    (arrivals : List PageResult) : Except String (List String) :=
  match collectResults (⟨1, firstPageRepos, none⟩ :: arrivals) (fun _ => none) with
  | .error e => .error e
  | .ok m => .ok (assemblePages firstPageRepos totalPages m)

/-- The arrival list in which the remaining pages of `pages` come back in
ascending page order. -/
def canonicalArrivals (pages : Nat → List String) (totalPages : Nat) :
    List PageResult :=
  (pageRange totalPages).map (fun p => ⟨p, pages p, none⟩)

/-- A call observed by the `ProgressTracker`: `StartWorker(workerID, name)`
or `CompleteRepository(name, success)`. -/
inductive ProgressEvent where
  | start : Nat → String → ProgressEvent
  | complete : String → Bool → ProgressEvent
  deriving Repr, DecidableEq

/-- The counters of `ProgressTracker` (progress.go): total completions and
failures. -/
structure TrackerState where
  completedRepos : Nat
  failedRepos : Nat
  deriving Repr, DecidableEq

/-- Counter updates of `StartWorker` / `CompleteRepository`
(progress.go): starting a worker touches no counter;
`CompleteRepository` increments `completedRepos` always and `failedRepos`
exactly when `success` is false. -/
def stepTracker (s : TrackerState) : ProgressEvent → TrackerState
  | .start _ _ => s
  | .complete _ success =>
    { completedRepos := s.completedRepos + 1,
      failedRepos := if success then s.failedRepos else s.failedRepos + 1 }

/-- A fresh tracker starts with both counters at zero. -/
def initTracker : TrackerState := ⟨0, 0⟩

/-- Run the tracker over a sequence of calls. -/
def runTracker (evs : List ProgressEvent) (s : TrackerState) : TrackerState :=
  evs.foldl stepTracker s

theorem containsSubstr_eq_true {s pat : String} :
    containsSubstr s pat = true ↔ List.IsInfix pat.data s.data := by
  simp [containsSubstr]

theorem containsSubstr_of_append (pat rest : String) :
    containsSubstr (pat ++ rest) pat = true := by
  rw [containsSubstr_eq_true]
  exact ⟨[], rest.data, by simp⟩

theorem retryLoop_all_fail (operation repoName : String)
    (errs : Nat → Option String) (es : Nat → String)
    (he : ∀ i, errs i = some (es i))
    (hne : ∀ i, containsSubstr (es i) "remote repository is empty" = false) :
    ∀ fuel idx, retryLoop operation repoName errs idx (fuel + 1) =
      ⟨fuel + 1, List.replicate fuel 5,
        some (wrapRetryError operation repoName (es (idx + fuel)))⟩ := by
  intro fuel
  induction fuel with
  | zero =>
    intro idx
    simp [retryLoop, he idx, hne idx]
  | succ f ih =>
    intro idx
    rw [retryLoop, he idx]
    simp only [hne idx, Bool.false_eq_true, if_false, Nat.succ_ne_zero,
      if_neg (Nat.succ_ne_zero f)]
    rw [ih (idx + 1)]
    have hidx : idx + 1 + f = idx + (f + 1) := by omega
    simp [List.replicate_succ, hidx]

/-- Claim C10: for every retryCount ≤ 0 the retry executor returns nil
without invoking the wrapped operation even once, for every operation
label, repository name and operation behaviour. -/
theorem c10_nonpositive_retry_returns_nil (retryCount : Int)
    (operation repoName : String) (errs : Nat → Option String)
    (h : retryCount ≤ 0) :
    runWithRetryGo retryCount operation repoName errs = ⟨0, [], none⟩ := by
  unfold runWithRetryGo
  rw [Int.toNat_of_nonpos h]
  rfl

/-- Witness for `c10_nonpositive_retry_returns_nil` at retryCount `-1`. -/
theorem c10_nonpositive_retry_returns_nil_witness :
    (-1 : Int) ≤ 0 ∧
      runWithRetryGo (-1) "cloning" "test-repo" (fun _ => some "boom") =
        ⟨0, [], none⟩ :=
  ⟨by decide,
    c10_nonpositive_retry_returns_nil (-1) "cloning" "test-repo"
      (fun _ => some "boom") (by decide)⟩

/-- Claim C2, counterexample: an operation that always fails with Go's
`repository not found` message is invoked 3 times (retried to exhaustion)
under a retry executor with 3 attempts, not returned immediately after the
first invocation as the claim states for `NotFound` failures. -/
theorem c2_notfound_retried_counterexample :
    (runWithRetryGo 3 "cloning" "test-repo"
        (fun _ => some "repository not found")).invocations = 3 ∧
      ¬(runWithRetryGo 3 "cloning" "test-repo"
          (fun _ => some "repository not found")).invocations = 1 := by
  constructor
  · decide
  · decide

/-- Claim C2 as amended: only an `EmptyRepository` failure makes
`RunWithRetry` return the classified error immediately with no further
invocation; a `NotFound` failure receives no special treatment and is
retried like any transient error, up to `retryCount` invocations. -/
theorem c2_empty_aborts_notfound_retries (retryCount : Int)
    (operation repoName e : String) (errs errs2 : Nat → Option String)
    (h1 : 1 ≤ retryCount) (he : errs 0 = some e)
    (hemp : containsSubstr e "remote repository is empty" = true)
    (hnf : ∀ i, errs2 i = some "repository not found") :
    runWithRetryGo retryCount operation repoName errs =
        ⟨1, [], some (wrapRetryError operation repoName e)⟩ ∧
      (runWithRetryGo retryCount operation repoName errs2).invocations =
        retryCount.toNat := by
  have hpos : 0 < retryCount.toNat := by omega
  constructor
  · unfold runWithRetryGo
    obtain ⟨fuel, hf⟩ : ∃ fuel, retryCount.toNat = fuel + 1 :=
      ⟨retryCount.toNat - 1, by omega⟩
    rw [hf, retryLoop, he]
    simp [hemp]
  · unfold runWithRetryGo
    obtain ⟨fuel, hf⟩ : ∃ fuel, retryCount.toNat = fuel + 1 :=
      ⟨retryCount.toNat - 1, by omega⟩
    have hc :
        containsSubstr "repository not found" "remote repository is empty" =
          false := by
      decide
    rw [hf, retryLoop_all_fail operation repoName errs2
      (fun _ => "repository not found") hnf (fun _ => hc) fuel 0]

/-- Witness for `c2_empty_aborts_notfound_retries` at retryCount 3. -/
theorem c2_empty_aborts_notfound_retries_witness :
    (1 : Int) ≤ 3 ∧
      (runWithRetryGo 3 "cloning" "test-repo"
          (fun _ => some "remote repository is empty") =
          ⟨1, [],
            some (wrapRetryError "cloning" "test-repo"
              "remote repository is empty")⟩ ∧
        (runWithRetryGo 3 "cloning" "test-repo"
            (fun _ => some "repository not found")).invocations =
          (3 : Int).toNat) :=
  ⟨by decide,
    c2_empty_aborts_notfound_retries 3 "cloning" "test-repo"
      "remote repository is empty"
      (fun _ => some "remote repository is empty")
      (fun _ => some "repository not found")
      (by decide) rfl (by decide) (fun _ => rfl)⟩

/-- Claim C7, counterexample: after exhausting 3 attempts on a transient
failure, the retry executor returns the last error wrapped as
`error <operation> <repoName>: <err>`; the attempt count (3) appears
nowhere in the returned error, contrary to the claim that the last error
is wrapped with the attempt count. -/
theorem c7_no_attempt_count_counterexample :
    (runWithRetryGo 3 "fetching updates for" "test-repo"
        (fun _ => some "network error")).result =
        some "error fetching updates for test-repo: network error" ∧
      containsSubstr "error fetching updates for test-repo: network error"
        "3" = false := by
  constructor
  · decide
  · decide

/-- Claim C7 as amended: for an operation failing with a transient error on
every attempt, the retry executor sleeps a fixed 5 seconds between
consecutive attempts, performs exactly `retryCount` invocations (its
maximum), and after the final attempt returns the last error wrapped with
the operation label and repository name (not with the attempt count, which
only appears in the retry log). -/
theorem c7_transient_fixed_delay_wrap (retryCount : Int)
    (operation repoName : String) (errs : Nat → Option String)
    (es : Nat → String) (h1 : 1 ≤ retryCount)
    (he : ∀ i, errs i = some (es i))
    (hne : ∀ i, containsSubstr (es i) "remote repository is empty" = false) :
    runWithRetryGo retryCount operation repoName errs =
      ⟨retryCount.toNat, List.replicate (retryCount.toNat - 1) 5,
        some (wrapRetryError operation repoName (es (retryCount.toNat - 1)))⟩ := by
  unfold runWithRetryGo
  obtain ⟨fuel, hf⟩ : ∃ fuel, retryCount.toNat = fuel + 1 :=
    ⟨retryCount.toNat - 1, by omega⟩
  rw [hf, retryLoop_all_fail operation repoName errs es he hne fuel 0]
  simp

/-- Witness for `c7_transient_fixed_delay_wrap` at retryCount 3 with a
constant transient error. -/
theorem c7_transient_fixed_delay_wrap_witness :
    (1 : Int) ≤ 3 ∧
      runWithRetryGo 3 "fetching updates for" "test-repo"
          (fun _ => some "network error") =
        ⟨(3 : Int).toNat, List.replicate ((3 : Int).toNat - 1) 5,
          some (wrapRetryError "fetching updates for" "test-repo"
            "network error")⟩ :=
  by
  refine ⟨by decide, ?_⟩
  have hc :
      containsSubstr "network error" "remote repository is empty" = false := by
    decide
  exact c7_transient_fixed_delay_wrap 3 "fetching updates for" "test-repo"
    (fun _ => some "network error") (fun _ => "network error")
    (by decide) (fun _ => rfl) (fun _ => hc)

/-- Claim C6: a clone attempt that fails with an error classified as
empty-remote-repository makes `Manager.cloneRepository` return success
after a single attempt via its skip branch (no error is returned), and a
success outcome reported to the progress tracker leaves the failure
counter unchanged, so the repository is skipped, not counted as a
failure. -/
theorem c6_empty_repo_skipped (retryCount : Int) (raws : Nat → Option String)
    (e repoName : String) (h1 : 1 ≤ retryCount) (he : raws 0 = some e)
    (hemp : containsSubstr e "remote repository is empty" = true) :
    managerCloneRepository retryCount raws = ⟨1, none, true⟩ ∧
      ∀ s : TrackerState,
        (stepTracker s (ProgressEvent.complete repoName true)).failedRepos =
          s.failedRepos := by
  constructor
  · unfold managerCloneRepository
    obtain ⟨fuel, hf⟩ : ∃ fuel, retryCount.toNat = fuel + 1 :=
      ⟨retryCount.toNat - 1, by omega⟩
    have hoc : opsCloneResult (raws 0) = some ("repository is empty: " ++ e) := by
      rw [he]
      simp [opsCloneResult, hemp]
    have hsplit : ("repository is empty: " ++ e) =
        "repository is empty" ++ (": " ++ e) := by
      have h0 : ("repository is empty" ++ ": " : String) =
          "repository is empty: " := rfl
      rw [← String.append_assoc, h0]
    have hpre :
        containsSubstr ("repository is empty: " ++ e) "repository is empty" =
          true := by
      rw [hsplit]
      exact containsSubstr_of_append "repository is empty" (": " ++ e)
    rw [hf, cloneLoop, hoc]
    simp [hpre]
  · intro s
    rfl

/-- Witness for `c6_empty_repo_skipped` at retryCount 3 with go-git's
empty-remote message. -/
theorem c6_empty_repo_skipped_witness :
    (1 : Int) ≤ 3 ∧
      (managerCloneRepository 3 (fun _ => some "remote repository is empty") =
          ⟨1, none, true⟩ ∧
        ∀ s : TrackerState,
          (stepTracker s (ProgressEvent.complete "empty-repo" true)).failedRepos =
            s.failedRepos) :=
  ⟨by decide,
    c6_empty_repo_skipped 3 (fun _ => some "remote repository is empty")
      "remote repository is empty" "empty-repo" (by decide) rfl (by decide)⟩

/-- Claim C1 (code bug): evaluating the source's `Manager.updateRepository`
on a concrete history-diverged repository — local head differs from the
fetched remote head and every pull attempt fails with go-git's
non-fast-forward message — shows the code retries the pull to exhaustion
and returns the wrapped pull error (a `Failed` outcome for the run),
without dropping the cached handle's directory (`os.RemoveAll` never runs)
and without re-running the clone step.  This contradicts the claimed
divergence recovery, which the repository's own design document, CLAUDE.md
and the `NonFastForwardError` tests describe. -/
theorem c1_diverged_pull_fails_no_recovery :
    updateRepository 3 "repo-x" divergedEnv =
      ⟨some "error pulling updates for repo-x: error pulling: non-fast-forward update",
        3, false, false⟩ ∧
      (updateRepository 3 "repo-x" divergedEnv).ret.isSome = true ∧
      (updateRepository 3 "repo-x" divergedEnv).removedDir = false ∧
      (updateRepository 3 "repo-x" divergedEnv).recloned = false := by
  refine ⟨by decide, by decide, by decide, by decide⟩

/-- Claim C9: over every sequence of `StartWorker` / `CompleteRepository`
calls, the tracker's `completedRepos` and `failedRepos` counters never
decrease (any extension of a call sequence only grows them) and
`failedRepos ≤ completedRepos` holds after every call. -/
theorem c9_tracker_monotone_completed_ge_failed
    (l1 l2 : List ProgressEvent) :
    (runTracker l1 initTracker).completedRepos ≤
        (runTracker (l1 ++ l2) initTracker).completedRepos ∧
      (runTracker l1 initTracker).failedRepos ≤
        (runTracker (l1 ++ l2) initTracker).failedRepos ∧
      (runTracker (l1 ++ l2) initTracker).failedRepos ≤
        (runTracker (l1 ++ l2) initTracker).completedRepos := by
  have hmono : ∀ (l : List ProgressEvent) (s : TrackerState),
      s.completedRepos ≤ (runTracker l s).completedRepos ∧
        s.failedRepos ≤ (runTracker l s).failedRepos := by
    intro l
    induction l with
    | nil => intro s; exact ⟨Nat.le_refl _, Nat.le_refl _⟩
    | cons e rest ih =>
      intro s
      have hstep : s.completedRepos ≤ (stepTracker s e).completedRepos ∧
          s.failedRepos ≤ (stepTracker s e).failedRepos := by
        cases e with
        | start _ _ => exact ⟨Nat.le_refl _, Nat.le_refl _⟩
        | complete _ success =>
          cases success <;> simp [stepTracker]
      have := ih (stepTracker s e)
      exact ⟨Nat.le_trans hstep.1 (by simpa [runTracker] using this.1),
        Nat.le_trans hstep.2 (by simpa [runTracker] using this.2)⟩
  have hinv : ∀ (l : List ProgressEvent) (s : TrackerState),
      s.failedRepos ≤ s.completedRepos →
        (runTracker l s).failedRepos ≤ (runTracker l s).completedRepos := by
    intro l
    induction l with
    | nil => intro s h; exact h
    | cons e rest ih =>
      intro s h
      have hstep : (stepTracker s e).failedRepos ≤
          (stepTracker s e).completedRepos := by
        cases e with
        | start _ _ => exact h
        | complete _ success =>
          cases success <;> simp [stepTracker] <;> omega
      simpa [runTracker] using ih (stepTracker s e) hstep
  have happ : runTracker (l1 ++ l2) initTracker =
      runTracker l2 (runTracker l1 initTracker) := by
    simp [runTracker, List.foldl_append]
  rw [happ]
  refine ⟨(hmono l2 (runTracker l1 initTracker)).1,
    (hmono l2 (runTracker l1 initTracker)).2, ?_⟩
  exact hinv l2 (runTracker l1 initTracker)
    (hinv l1 initTracker (Nat.le_refl 0))

theorem length_le_of_nodup_lt {l : List Nat} {n : Nat} (hnd : l.Nodup)
    (hlt : ∀ i ∈ l, i < n) : l.length ≤ n := by
  have hsub : l ⊆ List.range n := fun x hx => List.mem_range.mpr (hlt x hx)
  have h2 := (List.subperm_of_subset hnd hsub).length_le
  simpa using h2

/-- Invariant of the dispatcher transition system: completion reports are
unique and refer to admitted tasks, admissions never exceed the repository
count, at most `k` semaphore slots are held, and a returned dispatcher has
seen every admitted task complete, has exhausted the repositories or been
cancelled, and carries the return value dictated by the cancellation
flag. -/
def PoolInv (k n : Nat) (s : PoolState) : Prop :=
  s.completed.Nodup ∧ (∀ i ∈ s.completed, i < s.next) ∧ s.next ≤ n ∧
    s.running ≤ k ∧
    (s.returned = true →
      s.completed.length = s.next ∧ (s.next = n ∨ s.cancelled = true) ∧
        s.result = (if s.cancelled = true then some interruptedMsg else none))

theorem applyPool_inv {k n : Nat} {e : PoolEvent} {s s' : PoolState}
    (h : applyPool k n e s = some s') (hs : PoolInv k n s) :
    PoolInv k n s' := by
  obtain ⟨hnd, hbound, hle, hrun, hret⟩ := hs
  cases e with
  | admitNext =>
    simp only [applyPool] at h
    split at h
    case isTrue hc =>
      obtain ⟨h1, h2, h3, h4⟩ := hc
      injection h with h
      subst h
      have hlen : s.completed.length ≤ s.next := length_le_of_nodup_lt hnd hbound
      refine ⟨hnd, fun i hi => Nat.lt_succ_of_lt (hbound i hi),
        Nat.succ_le_of_lt h3, ?_, ?_⟩
      · simp only [PoolState.running] at h4 ⊢
        omega
      · intro hr
        simp only at hr
        rw [hr] at h1
        cases h1
    case isFalse => cases h
  | cancel =>
    simp only [applyPool] at h
    split at h
    case isTrue h1 =>
      injection h with h
      subst h
      refine ⟨hnd, hbound, hle, hrun, ?_⟩
      intro hr
      simp only at hr
      rw [hr] at h1
      cases h1
    case isFalse => cases h
  | complete i =>
    simp only [applyPool] at h
    split at h
    case isTrue hc =>
      obtain ⟨h1, h2, h3⟩ := hc
      injection h with h
      subst h
      refine ⟨?_, ?_, hle, ?_, ?_⟩
      · simpa using List.Nodup.concat h3 hnd
      · intro j hj
        rcases List.mem_append.mp hj with hj | hj
        · exact hbound j hj
        · simp only [List.mem_singleton] at hj
          subst hj
          exact h2
      · simp only [PoolState.running, List.length_append,
          List.length_singleton] at hrun ⊢
        omega
      · intro hr
        simp only at hr
        rw [hr] at h1
        cases h1
    case isFalse => cases h
  | finish =>
    simp only [applyPool] at h
    split at h
    case isTrue hc =>
      obtain ⟨h1, h2, h3⟩ := hc
      injection h with h
      subst h
      exact ⟨hnd, hbound, hle, hrun, fun _ => ⟨h3, h2, rfl⟩⟩
    case isFalse => cases h

theorem initPool_inv (k n : Nat) : PoolInv k n initPool := by
  refine ⟨List.nodup_nil, ?_, Nat.zero_le n, ?_, ?_⟩
  · intro i hi
    cases hi
  · simp [initPool, PoolState.running]
  · intro hr
    cases hr

theorem runPool_inv {k n : Nat} :
    ∀ (evs : List PoolEvent) (s s' : PoolState),
      runPool k n evs s = some s' → PoolInv k n s → PoolInv k n s' := by
  intro evs
  induction evs with
  | nil =>
    intro s s' h hs
    simp only [runPool, Option.some.injEq] at h
    rw [← h]
    exact hs
  | cons e rest ih =>
    intro s s' h hs
    simp only [runPool] at h
    cases happly : applyPool k n e s with
    | none => rw [happly] at h; cases h
    | some s1 =>
      rw [happly] at h
      exact ih s1 s' h (applyPool_inv happly hs)

theorem applyPool_cancelled_eq {k n : Nat} {e : PoolEvent} {s s' : PoolState}
    (hne : e ≠ PoolEvent.cancel) (h : applyPool k n e s = some s') :
    s'.cancelled = s.cancelled := by
  cases e with
  | admitNext =>
    simp only [applyPool] at h
    split at h
    · injection h with h
      rw [← h]
    · cases h
  | cancel => exact absurd rfl hne
  | complete i =>
    simp only [applyPool] at h
    split at h
    · injection h with h
      rw [← h]
    · cases h
  | finish =>
    simp only [applyPool] at h
    split at h
    · injection h with h
      rw [← h]
    · cases h

theorem runPool_no_cancel {k n : Nat} :
    ∀ (evs : List PoolEvent) (s s' : PoolState),
      PoolEvent.cancel ∉ evs → runPool k n evs s = some s' →
      s.cancelled = false → s'.cancelled = false := by
  intro evs
  induction evs with
  | nil =>
    intro s s' _ h hc
    simp only [runPool, Option.some.injEq] at h
    rw [← h]
    exact hc
  | cons e rest ih =>
    intro s s' hmem h hc
    simp only [runPool] at h
    cases happly : applyPool k n e s with
    | none => rw [happly] at h; cases h
    | some s1 =>
      rw [happly] at h
      have hne : e ≠ PoolEvent.cancel := fun he =>
        hmem (he ▸ List.mem_cons_self e rest)
      have h1 : s1.cancelled = false :=
        (applyPool_cancelled_eq hne happly).trans hc
      exact ih s1 s' (fun hm => hmem (List.mem_cons_of_mem e hm)) h h1

theorem applyPool_cancel_sticky {k n : Nat} {e : PoolEvent} {s s' : PoolState}
    (h : applyPool k n e s = some s') (hc : s.cancelled = true) :
    s'.cancelled = true ∧ s'.next = s.next := by
  cases e with
  | admitNext =>
    simp only [applyPool] at h
    split at h
    case isTrue hg =>
      rw [hc] at hg
      cases hg.2.1
    case isFalse => cases h
  | cancel =>
    simp only [applyPool] at h
    split at h
    · injection h with h
      rw [← h]
      exact ⟨rfl, rfl⟩
    · cases h
  | complete i =>
    simp only [applyPool] at h
    split at h
    · injection h with h
      rw [← h]
      exact ⟨hc, rfl⟩
    · cases h
  | finish =>
    simp only [applyPool] at h
    split at h
    · injection h with h
      rw [← h]
      exact ⟨hc, rfl⟩
    · cases h

theorem runPool_cancel_sticky {k n : Nat} :
    ∀ (evs : List PoolEvent) (s s' : PoolState),
      runPool k n evs s = some s' → s.cancelled = true →
      s'.cancelled = true ∧ s'.next = s.next := by
  intro evs
  induction evs with
  | nil =>
    intro s s' h hc
    simp only [runPool, Option.some.injEq] at h
    rw [← h]
    exact ⟨hc, rfl⟩
  | cons e rest ih =>
    intro s s' h hc
    simp only [runPool] at h
    cases happly : applyPool k n e s with
    | none => rw [happly] at h; cases h
    | some s1 =>
      rw [happly] at h
      obtain ⟨hc1, hn1⟩ := applyPool_cancel_sticky happly hc
      obtain ⟨hc2, hn2⟩ := ih s1 s' h hc1
      exact ⟨hc2, hn2.trans hn1⟩

theorem runPool_append {k n : Nat} :
    ∀ (a b : List PoolEvent) (s : PoolState),
      runPool k n (a ++ b) s =
        match runPool k n a s with
        | none => none
        | some t => runPool k n b t := by
  intro a
  induction a with
  | nil =>
    intro b s
    simp [runPool]
  | cons e rest ih =>
    intro b s
    simp only [List.cons_append, runPool]
    cases happly : applyPool k n e s with
    | none => rfl
    | some s1 => exact ih b s1

/-- Claim C3: for every concurrency limit k ≥ 1 and repository count n,
along any event sequence the dispatcher accepts, at most k tasks hold a
semaphore slot at any reachable state (so at most k process functions run
simultaneously), and when the dispatcher returns without any cancellation
event, the completion outcomes reported to the progress tracker are
exactly one per repository: a permutation of the n repository indices. -/
theorem c3_bounded_concurrency_exact_outcomes (k n : Nat)
    (evs : List PoolEvent) (s : PoolState) (_hk : 1 ≤ k)
    (h : runPool k n evs initPool = some s) :
    s.running ≤ k ∧
      (s.returned = true → PoolEvent.cancel ∉ evs →
        s.completed.Perm (List.range n)) := by
  obtain ⟨hnd, hbound, hle, hrun, hret⟩ :=
    runPool_inv evs initPool s h (initPool_inv k n)
  refine ⟨hrun, ?_⟩
  intro hr hnc
  have hcf : s.cancelled = false :=
    runPool_no_cancel evs initPool s hnc h rfl
  obtain ⟨hlen, hor, _⟩ := hret hr
  have hnextn : s.next = n := by
    rcases hor with h1 | h1
    · exact h1
    · rw [hcf] at h1
      cases h1
  have hsub : s.completed ⊆ List.range n := fun x hx =>
    List.mem_range.mpr (hnextn ▸ hbound x hx)
  refine List.Subperm.perm_of_length_le (List.subperm_of_subset hnd hsub) ?_
  simp [hlen, hnextn]

/-- Witness for `c3_bounded_concurrency_exact_outcomes`: two repositories
processed one at a time under concurrency limit 1. -/
theorem c3_bounded_concurrency_exact_outcomes_witness :
    (1 : Nat) ≤ 1 ∧
      runPool 1 2
          [PoolEvent.admitNext, PoolEvent.complete 0, PoolEvent.admitNext,
            PoolEvent.complete 1, PoolEvent.finish] initPool =
        some ⟨2, [0, 1], false, true, none⟩ ∧
      ((⟨2, [0, 1], false, true, none⟩ : PoolState).running ≤ 1 ∧
        ((⟨2, [0, 1], false, true, none⟩ : PoolState).returned = true →
          PoolEvent.cancel ∉
            [PoolEvent.admitNext, PoolEvent.complete 0, PoolEvent.admitNext,
              PoolEvent.complete 1, PoolEvent.finish] →
          (⟨2, [0, 1], false, true, none⟩ : PoolState).completed.Perm
            (List.range 2))) :=
  ⟨by decide, by decide,
    c3_bounded_concurrency_exact_outcomes 1 2
      [PoolEvent.admitNext, PoolEvent.complete 0, PoolEvent.admitNext,
        PoolEvent.complete 1, PoolEvent.finish]
      ⟨2, [0, 1], false, true, none⟩ (by decide) (by decide)⟩

/-- Claim C5: if cancellation is signalled after m < n tasks have been
admitted, then at the moment the dispatcher returns no further task has
been admitted (`next` is still m), every in-flight task has reported its
completion (exactly m outcomes), and the return value is the single
aggregate interrupted error. -/
theorem c5_cancel_stops_admission_waits_inflight (k n m : Nat)
    (evs1 evs2 : List PoolEvent) (s1 s : PoolState)
    (h1 : runPool k n evs1 initPool = some s1) (hm : s1.next = m)
    (_hmn : m < n)
    (h : runPool k n (evs1 ++ PoolEvent.cancel :: evs2) initPool = some s)
    (hret : s.returned = true) :
    s.next = m ∧ s.completed.length = m ∧ s.result = some interruptedMsg := by
  obtain ⟨_, _, _, _, hretinv⟩ :=
    runPool_inv (evs1 ++ PoolEvent.cancel :: evs2) initPool s h
      (initPool_inv k n)
  have h2 := h
  rw [runPool_append] at h2
  rw [h1] at h2
  simp only [runPool] at h2
  cases happly : applyPool k n PoolEvent.cancel s1 with
  | none => rw [happly] at h2; cases h2
  | some s2 =>
    rw [happly] at h2
    have hs2 : s2.cancelled = true ∧ s2.next = s1.next := by
      simp only [applyPool] at happly
      split at happly
      · injection happly with happly
        rw [← happly]
        exact ⟨rfl, rfl⟩
      · cases happly
    obtain ⟨hc2, hn2⟩ := hs2
    obtain ⟨hcs, hns⟩ := runPool_cancel_sticky evs2 s2 s h2 hc2
    have hnext : s.next = m := by rw [hns, hn2, hm]
    obtain ⟨hlen, _, hres⟩ := hretinv hret
    refine ⟨hnext, by rw [hlen, hnext], ?_⟩
    rw [hres, hcs]
    rfl

/-- Witness for `c5_cancel_stops_admission_waits_inflight`: three
repositories, one admitted, cancellation, the in-flight task completes and
the dispatcher returns interrupted. -/
theorem c5_cancel_stops_admission_waits_inflight_witness :
    runPool 2 3 [PoolEvent.admitNext] initPool =
        some ⟨1, [], false, false, none⟩ ∧
      (⟨1, [], false, false, none⟩ : PoolState).next = 1 ∧
      (1 : Nat) < 3 ∧
      runPool 2 3
          ([PoolEvent.admitNext] ++ PoolEvent.cancel ::
            [PoolEvent.complete 0, PoolEvent.finish]) initPool =
        some ⟨1, [0], true, true, some interruptedMsg⟩ ∧
      (⟨1, [0], true, true, some interruptedMsg⟩ : PoolState).returned = true ∧
      ((⟨1, [0], true, true, some interruptedMsg⟩ : PoolState).next = 1 ∧
        (⟨1, [0], true, true, some interruptedMsg⟩ :
            PoolState).completed.length = 1 ∧
        (⟨1, [0], true, true, some interruptedMsg⟩ : PoolState).result =
          some interruptedMsg) :=
  ⟨by decide, by decide, by decide, by decide, by decide,
    c5_cancel_stops_admission_waits_inflight 2 3 1 [PoolEvent.admitNext]
      [PoolEvent.complete 0, PoolEvent.finish]
      ⟨1, [], false, false, none⟩ ⟨1, [0], true, true, some interruptedMsg⟩
      (by decide) (by decide) (by decide) (by decide) (by decide)⟩

theorem collectResults_ok :
    ∀ (l : List PageResult) (m : Nat → Option (List String)),
      (∀ r ∈ l, r.err = none) →
      collectResults l m =
        .ok (l.foldl (fun acc r => insertPage acc r.page r.repos) m) := by
  intro l
  induction l with
  | nil =>
    intro m _
    rfl
  | cons r rest ih =>
    intro m hall
    have hr : r.err = none := hall r (List.mem_cons_self r rest)
    simp only [collectResults, hr, List.foldl_cons]
    exact ih (insertPage m r.page r.repos)
      (fun x hx => hall x (List.mem_cons_of_mem r hx))

theorem foldl_insert_not_mem :
    ∀ (l : List PageResult) (m : Nat → Option (List String)) (q : Nat),
      q ∉ l.map PageResult.page →
      (l.foldl (fun acc r => insertPage acc r.page r.repos) m) q = m q := by
  intro l
  induction l with
  | nil =>
    intro m q _
    rfl
  | cons r rest ih =>
    intro m q hq
    simp only [List.map_cons, List.mem_cons, not_or] at hq
    simp only [List.foldl_cons]
    rw [ih (insertPage m r.page r.repos) q hq.2]
    simp [insertPage, hq.1]

theorem foldl_insert_mem :
    ∀ (l : List PageResult) (m : Nat → Option (List String)) (r : PageResult),
      r ∈ l → (l.map PageResult.page).Nodup →
      (l.foldl (fun acc r => insertPage acc r.page r.repos) m) r.page =
        some r.repos := by
  intro l
  induction l with
  | nil =>
    intro m r hr _
    cases hr
  | cons a rest ih =>
    intro m r hr hnd
    simp only [List.map_cons, List.nodup_cons] at hnd
    rcases List.mem_cons.mp hr with h | h
    · subst h
      simp only [List.foldl_cons]
      rw [foldl_insert_not_mem rest (insertPage m r.page r.repos) r.page hnd.1]
      simp [insertPage]
    · simp only [List.foldl_cons]
      exact ih (insertPage m a.page a.repos) r h hnd.2

theorem assemblePages_foldl_eq :
    ∀ (L : List Nat) (acc : List String) (m : Nat → Option (List String))
      (pages : Nat → List String),
      (∀ p ∈ L, m p = some (pages p)) →
      L.foldl
          (fun acc p =>
            match m p with
            | some rs => acc ++ rs
            | none => acc)
          acc = acc ++ L.flatMap pages := by
  intro L
  induction L with
  | nil =>
    intro acc m pages _
    simp
  | cons p rest ih =>
    intro acc m pages hall
    have hp : m p = some (pages p) := hall p (List.mem_cons_self p rest)
    simp only [List.foldl_cons, hp, List.flatMap_cons]
    rw [ih (acc ++ pages p) m pages
      (fun q hq => hall q (List.mem_cons_of_mem p hq))]
    simp [List.append_assoc]

/-- Claim C4: for every arrival order of page fetches — any permutation of
the remaining pages — the fetcher returns the first page followed by the
remaining pages concatenated strictly by ascending page number, so the
returned repository list is identical for every permutation of
page-completion times. -/
theorem c4_page_order_deterministic (pages : Nat → List String)
    (firstPageRepos : List String) (totalPages : Nat)
    (arrivals : List PageResult)
    (hperm : arrivals.Perm (canonicalArrivals pages totalPages)) :
    fetchRemainingPages firstPageRepos totalPages arrivals =
      .ok (firstPageRepos ++ (pageRange totalPages).flatMap pages) := by
  have herr : ∀ r ∈ arrivals, r.err = none := by
    intro r hr
    have hmem : r ∈ canonicalArrivals pages totalPages := hperm.mem_iff.mp hr
    simp only [canonicalArrivals, List.mem_map] at hmem
    obtain ⟨p, _, hpe⟩ := hmem
    rw [← hpe]
  have hcanonmap : (canonicalArrivals pages totalPages).map PageResult.page =
      pageRange totalPages := by
    simp only [canonicalArrivals, List.map_map]
    exact List.map_id (pageRange totalPages)
  have hkeys : (arrivals.map PageResult.page).Nodup := by
    have hp := hperm.map PageResult.page
    rw [hcanonmap] at hp
    exact hp.nodup_iff.mpr (List.nodup_range' 2 (totalPages - 1) 1 (by decide))
  have hall : ∀ r ∈ (⟨1, firstPageRepos, none⟩ : PageResult) :: arrivals,
      r.err = none := by
    intro r hr
    rcases List.mem_cons.mp hr with h | h
    · rw [h]
    · exact herr r h
  unfold fetchRemainingPages
  rw [collectResults_ok (⟨1, firstPageRepos, none⟩ :: arrivals)
    (fun _ => none) hall]
  simp only []
  unfold assemblePages
  rw [assemblePages_foldl_eq (pageRange totalPages) firstPageRepos _ pages]
  intro p hp
  have hmem : (⟨p, pages p, none⟩ : PageResult) ∈
      canonicalArrivals pages totalPages := by
    simp only [canonicalArrivals, List.mem_map]
    exact ⟨p, hp, rfl⟩
  have hmem2 : (⟨p, pages p, none⟩ : PageResult) ∈ arrivals :=
    hperm.mem_iff.mpr hmem
  have := foldl_insert_mem arrivals
    (insertPage (fun _ => none) 1 firstPageRepos) ⟨p, pages p, none⟩
    hmem2 hkeys
  simpa [List.foldl_cons] using this

/-- Witness for `c4_page_order_deterministic`: three pages arriving in
reverse order still reassemble in ascending page order. -/
theorem c4_page_order_deterministic_witness :
    ([(⟨3, ["c1"], none⟩ : PageResult), ⟨2, ["b1"], none⟩].Perm
        (canonicalArrivals
          (fun p => if p = 2 then ["b1"] else ["c1"]) 3)) ∧
      fetchRemainingPages ["a1"] 3
          [⟨3, ["c1"], none⟩, ⟨2, ["b1"], none⟩] =
        .ok (["a1"] ++ (pageRange 3).flatMap
          (fun p => if p = 2 then ["b1"] else ["c1"])) :=
  ⟨by decide,
    c4_page_order_deterministic (fun p => if p = 2 then ["b1"] else ["c1"])
      ["a1"] 3 [⟨3, ["c1"], none⟩, ⟨2, ["b1"], none⟩] (by decide)⟩

theorem collectResults_error :
    ∀ (l : List PageResult) (m : Nat → Option (List String)),
      (∃ r ∈ l, r.err.isSome = true) →
      ∃ msg, collectResults l m = .error msg := by
  intro l
  induction l with
  | nil =>
    intro m h
    obtain ⟨r, hr, _⟩ := h
    cases hr
  | cons a rest ih =>
    intro m h
    cases ha : a.err with
    | some e =>
      simp only [collectResults, ha]
      cases hce : isCancellationErr e
      · exact ⟨"error fetching page " ++ toString a.page ++ ": " ++ e,
          by simp [hce]⟩
      · exact ⟨e, by simp [hce]⟩
    | none =>
      simp only [collectResults, ha]
      apply ih
      obtain ⟨r, hr, hsome⟩ := h
      rcases List.mem_cons.mp hr with he | he
      · subst he
        rw [ha] at hsome
        cases hsome
      · exact ⟨r, he, hsome⟩

/-- Claim C8: if any remaining-page fetch fails with a non-cancellation
error, the fetcher returns a listing error and no repository list; the
pages already collected are discarded, never returned partially. -/
theorem c8_page_failure_no_partial (firstPageRepos : List String)
    (totalPages : Nat) (arrivals : List PageResult)
    (h : ∃ r ∈ arrivals, ∃ e, r.err = some e ∧
      isCancellationErr e = false) :
    ∃ msg, fetchRemainingPages firstPageRepos totalPages arrivals =
      .error msg := by
  obtain ⟨r, hr, e, he, _⟩ := h
  have h2 : ∃ r2 ∈ (⟨1, firstPageRepos, none⟩ : PageResult) :: arrivals,
      r2.err.isSome = true :=
    ⟨r, List.mem_cons_of_mem _ hr, by rw [he]; rfl⟩
  obtain ⟨msg, hmsg⟩ :=
    collectResults_error ((⟨1, firstPageRepos, none⟩ : PageResult) :: arrivals)
      (fun _ => none) h2
  refine ⟨msg, ?_⟩
  unfold fetchRemainingPages
  rw [hmsg]

/-- Witness for `c8_page_failure_no_partial`: page 2 fails with a data
error while page 3 already completed; the whole call errors out. -/
theorem c8_page_failure_no_partial_witness :
    (∃ r ∈ [(⟨3, ["c1"], none⟩ : PageResult), ⟨2, [], some "boom"⟩],
        ∃ e, r.err = some e ∧ isCancellationErr e = false) ∧
      ∃ msg, fetchRemainingPages ["a1"] 3
          [(⟨3, ["c1"], none⟩ : PageResult), ⟨2, [], some "boom"⟩] =
        .error msg :=
  ⟨⟨⟨2, [], some "boom"⟩, by simp, "boom", rfl, by decide⟩,
    c8_page_failure_no_partial ["a1"] 3
      [⟨3, ["c1"], none⟩, ⟨2, [], some "boom"⟩]
      ⟨⟨2, [], some "boom"⟩, by simp, "boom", rfl, by decide⟩⟩
